import Mathlib

/-!
Verification development for the satyanaash HTTP API test harness.

The definitions below are a shallow embedding of the engine:
keyword substitution (src/test_case/keywords.rs), placeholder resolution
(src/test_case/placeholders.rs), row parsing (src/test_case/excel_parser.rs
and src/test_case/mod.rs::TestCase::new), the case executor
(src/test_case/mod.rs::TestCase::run / prepare_request / execute_request /
prepare_payload), the test context token logic (src/test_context.rs), the
group executor counters (src/test_group.rs), the suite orchestrator
(src/test_suite.rs and src/lib.rs), and the seeded JS assertion helper
(src/v8engine.rs::initialize_globals).

External crates (reqwest URL/method parsing, serde_json string parsing,
the random generators behind the keyword expander, HTTP transport, and the
embedded JS engine state) are modelled as explicit parameters or oracles;
everything written in the repository itself is translated directly.
-/

namespace Satyanaash

/-- Left brace character, written via its code point. -/
def braceL : Char := Char.ofNat 123

/-- Right brace character, written via its code point. -/
def braceR : Char := Char.ofNat 125

/-- Single-quote character, used inside source error messages. -/
def sq : String := String.mk [Char.ofNat 39]

/-- Double-quote character, written via its code point. -/
def dq : Char := Char.ofNat 34

/-- Model of serde_json::Value. -/
inductive Json where
  | null
  | bool (b : Bool)
  | num (n : Int)
  | str (s : String)
  | arr (xs : List Json)
  | obj (fields : List (String × Json))

/-- Value::get(key) — key lookup on objects, None on anything else. -/
def jsonGet (j : Json) (key : String) : Option Json :=
  match j with
  | .obj fs => fs.lookup key
  | _ => none

/-- Value::as_str — Some only for strings. -/
def Json.asStr : Json → Option String
  | .str s => some s
  | _ => none

/-- str::starts_with, checked on the character lists. -/
def strStartsWith (s p : String) : Bool := p.data.isPrefixOf s.data

/-- Does pat occur as a prefix-at-some-position (infix) of s?  Models
str::contains / Regex::find success for a literal pattern. -/
def containsSub (pat : List Char) : List Char → Bool
  | [] => pat.isPrefixOf []
  | c :: t => pat.isPrefixOf (c :: t) || containsSub pat (c :: t).tail

/-- String::replacen(pat, repl, 1): replace the first occurrence of pat. -/
def replFirst (pat repl : List Char) : List Char → List Char
  | [] => []
  | c :: t =>
    if pat.isPrefixOf (c :: t) then repl ++ (c :: t).drop pat.length
    else c :: replFirst pat repl t

/-- One `while let Some(m) = re.find(&output)` loop of keywords.rs for a
literal token: keep replacing the first occurrence, drawing each fresh
random value from the supply list (the supply stands for the external
random generator; it is consumed only when a replacement happens). -/
def replLoop (pat : List Char) : List String → List Char → List Char
  | [], s => s
  | v :: vs, s =>
    if containsSub pat s then replLoop pat vs (replFirst pat v.data s)
    else s

/-- Parse the optional argument group of the `$RandomEmail` regex
`(?:\(\s*(?:"([^"]*)")?\s*\))?` right after the literal.  Returns the
captured domain (if any) and the remaining characters; none when the
group does not match (the regex then backtracks to the bare literal). -/
def parseEmailArgs (s : List Char) : Option (Option String × List Char) :=
  match s with
  | c :: rest =>
    if c = '(' then
      let afterWs := rest.dropWhile Char.isWhitespace
      match afterWs with
      | q :: rest2 =>
        if q = dq then
          let dom := rest2.takeWhile (fun d => d ≠ dq)
          let rest3 := rest2.dropWhile (fun d => d ≠ dq)
          match rest3 with
          | _ :: rest4 =>
            let rest5 := rest4.dropWhile Char.isWhitespace
            match rest5 with
            | p :: rest6 => if p = ')' then some (some (String.mk dom), rest6) else none
            | [] => none
          | [] => none
        else if q = ')' then some (none, rest2)
        else none
      | [] => none
    else none
  | [] => none

/-- Leftmost match of the `$RandomEmail...` regex: find the literal, then
greedily try the optional argument group. Returns (prefix, domain, suffix). -/
def emailFind : List Char → Option (List Char × Option String × List Char)
  | [] => none
  | c :: rest =>
    if "$RandomEmail".data.isPrefixOf (c :: rest) then
      let after := (c :: rest).drop "$RandomEmail".data.length
      match parseEmailArgs after with
      | some (dom, rest2) => some ([], dom, rest2)
      | none => some ([], none, after)
    else
      match emailFind rest with
      | some (pre, dom, suf) => some (c :: pre, dom, suf)
      | none => none

/-- The `$RandomEmail` replacement loop; each generator in the supply takes
the captured domain, as bc::random_email(domain) does. -/
def emailLoop : List (Option String → String) → List Char → List Char
  | [], s => s
  | g :: gs, s =>
    match emailFind s with
    | some (pre, dom, suf) => emailLoop gs (pre ++ (g dom).data ++ suf)
    | none => s

/-- Fresh-value supplies for one call of substitute_keywords; each list
models the successive outputs of the corresponding external generator. -/
structure KwSup where
  names : List String
  phones : List String
  addrs : List String
  companies : List String
  emails : List (Option String → String)
  uuids : List String

/-- An empty supply (no replacement happens even if a token occurs). -/
def KwSup.empty : KwSup := ⟨[], [], [], [], [], []⟩

/-- Model of keywords.rs::substitute_keywords: the six replacement loops,
in source order. -/
def substituteKeywords (sup : KwSup) (s : String) : String :=
  let o := s.data
  let o := replLoop "$RandomName".data sup.names o
  let o := replLoop "$RandomPhone".data sup.phones o
  let o := replLoop "$RandomAddress".data sup.addrs o
  let o := replLoop "$RandomCompany".data sup.companies o
  let o := emailLoop sup.emails o
  let o := replLoop "$UUID".data sup.uuids o
  String.mk o

/-- str::trim on a character list (whitespace from both ends). -/
def trimChars (s : List Char) : List Char :=
  ((s.dropWhile Char.isWhitespace).reverse.dropWhile Char.isWhitespace).reverse

/-- str::trim_start_matches(p): strip every leading repetition of p.
Fuel-driven; fuel is always instantiated to the length of the string,
which bounds the number of strips for a non-empty pattern. -/
def stripRepAux (p : List Char) : Nat → List Char → List Char
  | 0, s => s
  | f + 1, s =>
    if p ≠ [] ∧ p.isPrefixOf s then stripRepAux p f (s.drop p.length)
    else s

/-- str::trim_start_matches(p) entry point. -/
def stripRep (p s : List Char) : List Char := stripRepAux p (s.length + 1) s

/-- The external world visible to the placeholder resolver: the process
environment, the interactive stdin prompt, and evaluation of
`SAT.globals.<name>` in the per-group JS runtime (error = the eval threw). -/
structure PhWorld where
  env : String → Option String
  input : String → String
  globalLookup : String → Except Unit Json

/-- The replacement closure of placeholders.rs::substitute_placeholders,
applied to one capture (caps[1] = inner).  Returns the replacement text;
caps[0] (the braces included) is re-emitted when resolution fails. -/
def resolveExpr (w : PhWorld) (inner : List Char) : List Char :=
  let caps0 := braceL :: braceL :: (inner ++ [braceR, braceR])
  let e := String.mk (trimChars inner)
  if strStartsWith e "env:" then
    let n := String.mk (trimChars (stripRep "env:".data e.data))
    match w.env n with
    | some v => v.data
    | none => caps0
  else if strStartsWith e "input:" then
    let n := String.mk (trimChars (stripRep "input:".data e.data))
    (w.input n).data
  else
    match w.globalLookup e with
    | .ok v =>
      match v.asStr with
      | some s => s.data
      | none => caps0
    | .error _ => caps0

/-- Lazy tail of the regex `\{\{(.*?)\}\}`: after an opening `{{`, scan for
the nearest `}}`; `.` does not cross a newline.  Returns the capture and
the characters after the closing braces. -/
def findClose : List Char → Option (List Char × List Char)
  | [] => none
  | c :: rest =>
    if c = braceR ∧ rest.head? = some braceR then some ([], rest.tail)
    else if c = '\n' then none
    else
      match findClose rest with
      | some (inner, after) => some (c :: inner, after)
      | none => none

/-- Regex::replace_all for `\{\{(.*?)\}\}` with the resolver closure.
Fuel-driven scan from the left; fuel is instantiated to the input length,
which suffices since every step consumes at least one input character. -/
def substPhAux (w : PhWorld) : Nat → List Char → List Char
  | 0, _ => []
  | _ + 1, [] => []
  | f + 1, c :: rest =>
    if c = braceL ∧ rest.head? = some braceL then
      match findClose rest.tail with
      | some (inner, after) => resolveExpr w inner ++ substPhAux w f after
      | none => c :: substPhAux w f rest
    else c :: substPhAux w f rest

/-- Model of PlaceholderResolver::substitute_placeholders: first
substitute_keywords, then the single regex replacement pass. -/
def substitutePlaceholders (sup : KwSup) (w : PhWorld) (s : String) : String :=
  let k := substituteKeywords sup s
  String.mk (substPhAux w k.data.length k.data)

/-- str::split(sep) on a single character; an empty string yields one
empty part, as in Rust. -/
def splitChar (sep : Char) : List Char → List String
  | [] => [""]
  | c :: t =>
    let rest := splitChar sep t
    if c = sep then "" :: rest
    else
      match rest with
      | r :: rs => String.mk (c :: r.data) :: rs
      | [] => [String.mk [c]]

/-- Model of test_context.rs::extract_token: split the configured
token_key on dots and walk the parsed JSON body; None when the body is
not JSON, a key is missing, or the final value is not a string. -/
def extractToken (body : Option Json) (tokenKey : Option String) : Option String :=
  match body with
  | none => none
  | some j =>
    let keys := splitChar '.' (tokenKey.getD "").data
    let finalVal := keys.foldl (fun cur k => cur.bind (fun v => jsonGet v k)) (some j)
    finalVal.bind Json.asStr

/-- The token update performed by TestCtx::exec: only an authorizer case
whose response body is JSON and yields a token through extract_token
overwrites the stored bearer; otherwise the previous token is kept. -/
def tokenAfterExec (tok : Option String) (isAuthorizer : Bool)
    (body : Option Json) (tokenKey : Option String) : Option String :=
  if isAuthorizer then
    match extractToken body tokenKey with
    | some t => some t
    | none => tok
  else tok

/-- Model of data.rs::TestResult. -/
inductive TestResult where
  | notYetTested
  | passed
  | failed
  | skipped
deriving DecidableEq

/-- Model of data.rs::AuthType. -/
inductive AuthType where
  | noAuth
  | authorizer
  | authorized
deriving DecidableEq

/-- AuthType::is_authorized. -/
def AuthType.isAuthorized : AuthType → Bool
  | .authorized => true
  | _ => false

/-- AuthType::is_authorizer. -/
def AuthType.isAuthorizer : AuthType → Bool
  | .authorizer => true
  | _ => false

/-- Model of data.rs::TestCaseConfig (repeat_count, auth_type, delay). -/
structure TCConfig where
  repeatCount : Nat
  authType : AuthType
  delay : Nat
deriving DecidableEq

/-- The serde defaults: repeat_count = 1, auth_type = none, delay = 0. -/
def TCConfig.default : TCConfig := ⟨1, .noAuth, 0⟩

/-- External observables of one loop iteration of TestCase::run: the JSON
view of the HTTP response body reaching TestCtx::exec (none = transport
error or non-JSON body), and the boolean produced by
TestCtx::verify_result on the post script. -/
structure Outcome where
  body : Option Json
  postOk : Bool

/-- Header preparation of TestCase::prepare_request: clone the static
headers and, when the case is authorized and the context holds a token,
push an Authorization bearer pair. -/
def prepHeaders (staticHeaders : List (String × String)) (authType : AuthType)
    (tok : Option String) : List (String × String) :=
  match tok with
  | some t =>
    if authType.isAuthorized then staticHeaders ++ [("Authorization", "Bearer " ++ t)]
    else staticHeaders
  | none => staticHeaders

/-- Result of the repeat loop of TestCase::run: the header list of every
sent request in order, the context token afterwards, and whether the loop
ended by the fail-fast break. -/
structure IterTrace where
  sends : List (List (String × String))
  token : Option String
  failed : Bool

/-- The `for _ in 0..repeat_count` loop of TestCase::run.  Each iteration
prepares the request with the current token (pre_run_ops →
prepare_request), sends it (TestCtx::exec, which may store a new token),
evaluates the post script, and breaks on failure.  i is the iteration
index, n the remaining iteration count. -/
def runIters (staticHeaders : List (String × String)) (cfg : TCConfig)
    (tokenKey : Option String) (outcome : Nat → Outcome) :
    Nat → Nat → Option String → IterTrace
  | _, 0, tok => ⟨[], tok, false⟩
  | i, n + 1, tok =>
    let hs := prepHeaders staticHeaders cfg.authType tok
    let tok2 := tokenAfterExec tok cfg.authType.isAuthorizer (outcome i).body tokenKey
    if (outcome i).postOk then
      let rest := runIters staticHeaders cfg tokenKey outcome (i + 1) n tok2
      ⟨hs :: rest.sends, rest.token, rest.failed⟩
    else ⟨[hs], tok2, true⟩

/-- Model of data.rs::TestCaseData (method kept as its string form; the
reqwest::Method value itself is opaque to the engine logic). -/
structure TestCaseData where
  id : Nat
  name : String
  given : String
  whenCond : String
  thenCond : String
  url : String
  method : String
  headers : List (String × String)
  payload : String
  config : TCConfig
  preTest : Option String
  postTest : Option String
deriving DecidableEq

/-- The default record TestCase::new materializes when the row has parse
errors (GET method, empty strings, default config, no scripts). -/
def defaultCaseData : TestCaseData :=
  ⟨0, "", "", "", "", "", "GET", [], "", TCConfig.default, none, none⟩

/-- Model of mod.rs::TestCase: parsed data plus the legacy error list. -/
structure TestCase where
  data : TestCaseData
  errors : List (String × String)
deriving DecidableEq

/-- Events of the typed bus (test_events.rs), keyed the way the matching
is observable: group events carry the group name, case events the case id. -/
inductive Ev where
  | suiteBegin
  | suiteEnd
  | groupBegin (g : String)
  | groupEnd (g : String)
  | caseBegin (id : Nat)
  | caseEnd (id : Nat)
deriving DecidableEq

/-- Everything TestCase::run produces that the claims observe: the
aggregate result, the sent requests (header lists, in order), the case
events fired, and the context token afterwards. -/
structure RunOut where
  result : TestResult
  sends : List (List (String × String))
  events : List Ev
  token : Option String

/-- Model of TestCase::run: fire the begin event; if the case has parse
errors return Skipped at once (no end event, no request); otherwise run
the repeat loop, where every iteration sends one request and fires one
end event (execute_request), and a failed iteration breaks the loop. -/
def runCase (tc : TestCase) (tokenKey : Option String) (outcome : Nat → Outcome)
    (tok0 : Option String) : RunOut :=
  if tc.errors ≠ [] then ⟨.skipped, [], [.caseBegin tc.data.id], tok0⟩
  else
    let t := runIters tc.data.headers tc.data.config tokenKey outcome 0
      tc.data.config.repeatCount tok0
    ⟨if t.failed then .failed else .passed, t.sends,
      .caseBegin tc.data.id :: t.sends.map (fun _ => .caseEnd tc.data.id), t.token⟩

/-- The payload encoding chosen by TestCase::prepare_payload, with the
value handed to reqwest (json / form / multipart bodies all start from
the serde parse of the effective payload, defaulting to the empty
object). -/
inductive PayloadEnc where
  | jsonEnc (v : Json)
  | formEnc (v : Json)
  | multipartEnc (v : Json)

/-- Is the encoding the JSON one? -/
def PayloadEnc.isJsonEnc : PayloadEnc → Bool
  | .jsonEnc _ => true
  | _ => false

/-- str::to_lowercase, modelled per character (the engine only compares
ASCII header names and media types). -/
def lowerStr (s : String) : String := String.mk (s.data.map Char.toLower)

/-- The Content-Type scan of prepare_payload: first header whose
lowercased name is content-type, value lowercased. -/
def findContentType (headers : List (String × String)) : Option String :=
  (headers.find? (fun kv => lowerStr kv.1 = "content-type")).map (fun kv => lowerStr kv.2)

/-- Model of TestCase::prepare_payload.  jparse stands for
serde_json::from_str (an external crate); the fallback is json!({}).
Source match order: the three known content types, then the guarded
`None if payload contains "form-data"` arm, then the default arm. -/
def preparePayload (jparse : String → Option Json)
    (headers : List (String × String)) (effectivePayload : String) : PayloadEnc :=
  let v := (jparse effectivePayload).getD (Json.obj [])
  match findContentType headers with
  | some ct =>
    if ct = "application/json" then .jsonEnc v
    else if ct = "application/x-www-form-urlencoded" then .formEnc v
    else if ct = "multipart/form-data" then .multipartEnc v
    else .jsonEnc v
  | none =>
    if containsSub "form-data".data effectivePayload.data then .multipartEnc v
    else .jsonEnc v

/-- Group statistics (test_group.rs). -/
structure GroupStats where
  total : Nat
  passed : Nat
  failed : Nat
  skipped : Nat
deriving DecidableEq

/-- The counter update of TestGroup::exec after a case ran. -/
def groupUpdate (s : GroupStats) (r : TestResult) : GroupStats :=
  let s2 : GroupStats := { s with total := s.total + 1 }
  match r with
  | .passed => { s2 with passed := s2.passed + 1 }
  | .failed => { s2 with failed := s2.failed + 1 }
  | .skipped => { s2 with skipped := s2.skipped + 1 }
  | .notYetTested => s2

/-- JavaScript values as projected by v8engine.rs (undefined is folded
into null by eval; numbers kept integral here since no claim depends on
doubles). -/
inductive JsVal where
  | null
  | bool (b : Bool)
  | num (n : Int)
  | str (s : String)
deriving DecidableEq

/-- Strict JS equality against literal true (`result === true`). -/
def strictEqTrue : JsVal → Bool
  | .bool true => true
  | _ => false

/-- The part of the seeded SAT namespace the tester can touch. -/
structure SatState where
  testName : Option JsVal
deriving DecidableEq

/-- Model of the SAT.tester function seeded by
v8engine.rs::initialize_globals:

  SAT.tester = function(name, cb) \x7b
      console.log(...);
      let result = cb();
      return result === true ? true : false;
  \x7d;

The callback may throw (Except.error); the function installs no
try/catch, so a throw propagates to the caller, and it never writes
SAT.testName.  The console.log side effect is not observable here. -/
def satTester (st : SatState) (_name : String) (cb : Unit → Except JsVal JsVal) :
    Except JsVal (SatState × JsVal) :=
  match cb () with
  | .error e => .error e
  | .ok r => .ok (st, .bool (strictEqTrue r))

/-- Modelled from the spec (section 4.3), for comparison only: the spec
version of SAT.tester records the assertion name in SAT.testName before
running the callback and catches any exception, returning false. -/
def satTesterSpec (st : SatState) (name : String) (cb : Unit → Except JsVal JsVal) :
    SatState × JsVal :=
  let st2 : SatState := { st with testName := some (.str name) }
  match cb () with
  | .ok r => (st2, .bool (strictEqTrue r))
  | .error _ => (st2, .bool false)

/-- A spreadsheet cell (calamine::Data), reduced to the variants the
parser distinguishes: strings, floats, and everything else. -/
inductive Cell where
  | empty
  | s (v : String)
  | f (v : Int)
deriving DecidableEq

/-- Data::get_string. -/
def Cell.getString? : Cell → Option String
  | .s v => some v
  | _ => none

/-- Data::get_float. -/
def Cell.getFloat? : Cell → Option Int
  | .f v => some v
  | _ => none

/-- A row of the worksheet. -/
def Row := List Cell

/-- row[i]; actual rows have the fixed 12-column layout, a missing cell
reads as empty. -/
def cellAt (r : Row) (i : Nat) : Cell := List.getD r i Cell.empty

/-- The external collaborators of the row parser: reqwest::Url::parse
success, reqwest::Method parsing, serde_json::from_str, and the serde
decode of the TestCaseConfig cell. -/
structure Ext where
  urlOk : String → Bool
  methodParse : String → Option String
  jparse : String → Option Json
  cparse : String → Option TCConfig

/-- A parse error (field, message). -/
structure ParseErr where
  field : String
  message : String
deriving DecidableEq

/-- ExcelRowParser::parse_id: a float coerced to u32, else an error. -/
def parseId (c : Cell) : Nat × List ParseErr :=
  match c.getFloat? with
  | some v => (v.toNat, [])
  | none => (0, [⟨"id", "ID is not a number."⟩])

/-- ExcelRowParser::parse_name. -/
def parseName (sup : KwSup) (c : Cell) : String × List ParseErr :=
  match c.getString? with
  | some v => (substituteKeywords sup v, [])
  | none => ("", [⟨"name", "Invalid name field"⟩])

/-- ExcelRowParser::parse_given / parse_when / parse_then share one shape:
a keyword-expanded string, else an error naming the field. -/
def parseGwt (fieldName : String) (sup : KwSup) (c : Cell) : String × List ParseErr :=
  match c.getString? with
  | some v => (substituteKeywords sup v, [])
  | none => ("", [⟨fieldName, "Invalid data for " ++ sq ++ fieldName ++ sq ++ " field."⟩])

/-- ExcelRowParser::parse_url: keyword-expand, prepend base_url unless the
cell is absolute, then validate through Url::parse. -/
def parseUrl (ext : Ext) (sup : KwSup) (baseUrl : Option String) (c : Cell) :
    String × List ParseErr :=
  match c.getString? with
  | some v =>
    let sv := substituteKeywords sup v
    let fullUrl :=
      if strStartsWith sv "http://" || strStartsWith sv "https://" then sv
      else (baseUrl.getD "") ++ sv
    if ext.urlOk fullUrl then (fullUrl, [])
    else ("", [⟨"url", "Invalid URL format."⟩])
  | none => ("", [⟨"url", "No data for " ++ sq ++ "url" ++ sq ++ " field."⟩])

/-- ExcelRowParser::parse_method: parse through reqwest::Method, default
GET on failure. -/
def parseMethod (ext : Ext) (c : Cell) : String × List ParseErr :=
  match c.getString? with
  | some v =>
    match ext.methodParse v with
    | some m => (m, [])
    | none => ("GET", [⟨"method", "Invalid HTTP method."⟩])
  | none => ("GET", [⟨"method", "No data for " ++ sq ++ "method" ++ sq ++ " field."⟩])

/-- ExcelRowParser::parse_headers: split on commas, keep exactly the
two-part colon pairs, trim both sides; malformed pairs are dropped
silently. -/
def parseHeaders (c : Cell) : List (String × String) :=
  match c.getString? with
  | some v =>
    (splitChar ',' v.data).filterMap (fun header =>
      let parts := splitChar ':' header.data
      match parts with
      | [k, val] => some (String.mk (trimChars k.data), String.mk (trimChars val.data))
      | _ => none)
  | none => []

/-- ExcelRowParser::parse_payload: keyword-expand; a non-empty payload
must be valid JSON (kept as text), else an error and an empty payload. -/
def parsePayload (ext : Ext) (sup : KwSup) (c : Cell) : String × List ParseErr :=
  match c.getString? with
  | some v =>
    let sv := substituteKeywords sup v
    if sv ≠ "" then
      match ext.jparse sv with
      | some _ => (sv, [])
      | none => ("", [⟨"payload", "Invalid JSON payload."⟩])
    else (sv, [])
  | none => ("", [])

/-- ExcelRowParser::parse_config: serde decode of the config cell, warning
and defaulting on any failure. -/
def parseTCConfig (ext : Ext) (c : Cell) : TCConfig :=
  match c.getString? with
  | some v => (ext.cparse v).getD TCConfig.default
  | none => TCConfig.default

/-- ExcelRowParser::parse_test_case_data: read the pre script first, then
every field in column order, accumulating errors; Ok only when no field
errored.  kw supplies the fresh random values of each of the seven
substitute_keywords calls, in call order. -/
def parseTestCaseData (ext : Ext) (kw : Nat → KwSup) (baseUrl : Option String)
    (row : Row) : Except (List ParseErr) TestCaseData :=
  let preTest := (cellAt row 10).getString?
  let idR := parseId (cellAt row 0)
  let nameR := parseName (kw 0) (cellAt row 1)
  let givenR := parseGwt "given" (kw 1) (cellAt row 2)
  let whenR := parseGwt "when" (kw 2) (cellAt row 3)
  let thenR := parseGwt "then" (kw 3) (cellAt row 4)
  let urlR := parseUrl ext (kw 4) baseUrl (cellAt row 5)
  let methodR := parseMethod ext (cellAt row 6)
  let headers := parseHeaders (cellAt row 7)
  let payloadR := parsePayload ext (kw 5) (cellAt row 8)
  let testConfig := parseTCConfig ext (cellAt row 9)
  let postTest := ((cellAt row 11).getString?).map (substituteKeywords (kw 6))
  let errs := idR.2 ++ nameR.2 ++ givenR.2 ++ whenR.2 ++ thenR.2 ++ urlR.2
    ++ methodR.2 ++ payloadR.2
  if errs.isEmpty then
    .ok ⟨idR.1, nameR.1, givenR.1, whenR.1, thenR.1, urlR.1, methodR.1,
      headers, payloadR.1, testConfig, preTest, postTest⟩
  else .error errs

/-- Model of TestCase::new: a clean parse keeps the data with no errors; a
failed parse materializes the default record and converts the parse
errors to the legacy (field, message) pairs. -/
def TestCase.new (ext : Ext) (kw : Nat → KwSup) (baseUrl : Option String)
    (row : Row) : TestCase :=
  match parseTestCaseData ext kw baseUrl row with
  | .ok d => ⟨d, []⟩
  | .error es => ⟨defaultCaseData, es.map (fun e => (e.field, e.message))⟩

/-- Model of config.rs::Config (the frozen run configuration). -/
structure SuiteCfg where
  startRow : Option Nat
  endRow : Option Nat
  baseUrl : Option String
  testFile : Option String
  worksheet : Option String
  verbose : Bool
  tokenKey : Option String
  groups : Option (List (Option String × String))

/-- test_suite.rs::parse_config_groups + the lookup in exec: a group is
run when the selector list is absent or empty, or some selector whose
worksheet (defaulting to the sheet being executed) matches the current
sheet names this group. -/
def allowedGroup (cfg : SuiteCfg) (sheet g : String) : Bool :=
  match cfg.groups with
  | none => true
  | some l => l.isEmpty || l.any (fun e => e.1.getD sheet = sheet && e.2 = g)

/-- row[0].get_string().unwrap_or(""). -/
def firstCellStr (r : Row) : String := ((List.headD r Cell.empty).getString?).getD ""

/-- Does the row start a group (first cell starts with `Group:`)? -/
def isGroupRow (r : Row) : Bool := strStartsWith (firstCellStr r) "Group:"

/-- The group name: strip the `Group:` marker(s), then trim. -/
def groupNameOf (r : Row) : String :=
  String.mk (trimChars (stripRep "Group:".data (firstCellStr r).data))

/-- The in-progress group of the suite loop: its name and the bearer
token of its TestCtx (fresh contexts start with no token). -/
structure GroupSt where
  name : String
  token : Option String

/-- The external world of one case row: the per-iteration HTTP/post
outcomes and the random supplies of its parse. -/
structure CaseEnv where
  outcome : Nat → Outcome
  kw : Nat → KwSup

/-- group.fire_end_evt at finalize_group, when a group is active. -/
def finalizeEvs (g : Option GroupSt) : List Ev :=
  match g with
  | some gs => [.groupEnd gs.name]
  | none => []

/-- The row loop of TestSuite::exec over one worksheet: skip rows below
start_row, finalize/open groups on `Group:` rows, dispatch other rows to
the active group (TestGroup::exec → TestCase::new → TestCase::run).
Returns the emitted events and the indices of the dispatched rows. -/
def suiteLoop (cfg : SuiteCfg) (ext : Ext) (sheet : String) (env : Nat → CaseEnv) :
    List (Nat × Row) → Option GroupSt → List Ev × List Nat
  | [], g => (finalizeEvs g, [])
  | (i, r) :: rest, g =>
    if i < cfg.startRow.getD 1 then suiteLoop cfg ext sheet env rest g
    else if isGroupRow r then
      let fin := finalizeEvs g
      let gname := groupNameOf r
      if allowedGroup cfg sheet gname then
        let res := suiteLoop cfg ext sheet env rest (some ⟨gname, none⟩)
        (fin ++ .groupBegin gname :: res.1, res.2)
      else
        let res := suiteLoop cfg ext sheet env rest none
        (fin ++ res.1, res.2)
    else
      match g with
      | some gs =>
        let tc := TestCase.new ext (env i).kw cfg.baseUrl r
        let out := runCase tc cfg.tokenKey (env i).outcome gs.token
        let res := suiteLoop cfg ext sheet env rest (some ⟨gs.name, out.token⟩)
        (out.events ++ res.1, i :: res.2)
      | none => suiteLoop cfg ext sheet env rest none

/-- Model of TestSuite::exec for one worksheet: suite begin event, the
row loop (with the trailing group finalization), suite end event. -/
def suiteRun (cfg : SuiteCfg) (ext : Ext) (sheet : String) (rows : List Row)
    (env : Nat → CaseEnv) : List Ev × List Nat :=
  let body := suiteLoop cfg ext sheet env rows.enum none
  (.suiteBegin :: body.1 ++ [.suiteEnd], body.2)

/-- Model of TSat::exec (lib.rs): run the configured worksheet if one is
set, else every sheet of the workbook in order.  Dispatched rows are
tagged with their sheet. -/
def tsatRun (cfg : SuiteCfg) (ext : Ext) (wb : List (String × List Row))
    (env : String → Nat → CaseEnv) : List Ev × List (String × Nat) :=
  match cfg.worksheet with
  | some w =>
    let res := suiteRun cfg ext w ((wb.lookup w).getD []) (env w)
    (res.1, res.2.map (fun i => (w, i)))
  | none =>
    wb.foldl (fun acc entry =>
      let res := suiteRun cfg ext entry.1 entry.2 (env entry.1)
      (acc.1 ++ res.1, acc.2 ++ res.2.map (fun i => (entry.1, i)))) ([], [])

/-- Checker state for span nesting of the event stream. -/
inductive NestSt where
  | outside
  | inSuite
  | inGroup (g : String)
deriving DecidableEq

/-- One step of the nesting checker: suite begin/end bracket everything,
group spans sit inside the suite span, case events only inside a group
span whose end must name the group begun. -/
def stepNest : NestSt → Ev → Option NestSt
  | .outside, .suiteBegin => some .inSuite
  | .inSuite, .suiteEnd => some .outside
  | .inSuite, .groupBegin g => some (.inGroup g)
  | .inGroup g, .groupEnd g2 => if g = g2 then some .inSuite else none
  | .inGroup g, .caseBegin _ => some (.inGroup g)
  | .inGroup g, .caseEnd _ => some (.inGroup g)
  | _, _ => none

/-- Run the nesting checker over an event list. -/
def runNest : List Ev → NestSt → Option NestSt
  | [], st => some st
  | e :: t, st =>
    match stepNest st e with
    | some st2 => runNest t st2
    | none => none

/-- A trace is well nested when the checker consumes it from outside back
to outside. -/
def wellNested (l : List Ev) : Bool := runNest l .outside = some .outside

/-- The inputs that determine one (error-free) case inside a group run:
its static header list, its config, and the external outcome of each
iteration. -/
structure CaseSpec where
  headers : List (String × String)
  cfg : TCConfig
  outcome : Nat → Outcome

/-- One case of a group run through the repeat loop, starting from the
given context token. -/
def caseRunTok (tokenKey : Option String) (tok : Option String) (c : CaseSpec) :
    IterTrace :=
  runIters c.headers c.cfg tokenKey c.outcome 0 c.cfg.repeatCount tok

/-- The context token after a list of cases ran in order (the group
context threads it, starting from none for a fresh group). -/
def groupTok (tokenKey : Option String) (cs : List CaseSpec) (tok : Option String) :
    Option String :=
  cs.foldl (fun t c => (caseRunTok tokenKey t c).token) tok

/-- A case that can never store a token: it is not an authorizer, or none
of its (at most repeatCount) iterations extracts one. -/
def inertCase (tokenKey : Option String) (c : CaseSpec) : Prop :=
  c.cfg.authType ≠ AuthType.authorizer ∨
    ∀ j, j < c.cfg.repeatCount → extractToken (c.outcome j).body tokenKey = none

instance (tokenKey : Option String) (c : CaseSpec) :
    Decidable (inertCase tokenKey c) := by
  unfold inertCase
  infer_instance

/-- Checker state corresponding to a suite-loop group state. -/
def stOf : Option GroupSt → NestSt
  | some gs => .inGroup gs.name
  | none => .inSuite

/-- Trivial external collaborators: every URL valid, methods taken
verbatim, serde always failing (no cell in the fixtures needs it). -/
def extT : Ext := ⟨fun _ => true, fun s => some s, fun _ => none, fun _ => none⟩

/-- Empty keyword supplies for every parser call. -/
def kwT : Nat → KwSup := fun _ => KwSup.empty

/-- A placeholder world with nothing defined. -/
def phT : PhWorld := ⟨fun _ => none, fun _ => "", fun _ => Except.error ()⟩

/-- Outcomes where every request succeeds with a non-JSON body and every
post script passes. -/
def outT : Nat → Outcome := fun _ => ⟨none, true⟩

/-- The per-sheet per-row environment built from those outcomes. -/
def envT : String → Nat → CaseEnv := fun _ _ => ⟨outT, kwT⟩

/-- A well-formed case row (float id, strings everywhere required). -/
def rowOk : Row := [Cell.f 1, Cell.s "n", Cell.s "g", Cell.s "w", Cell.s "t",
  Cell.s "http://a/", Cell.s "GET", Cell.empty, Cell.empty, Cell.empty,
  Cell.s "PS", Cell.empty]

/-- A row whose id cell is a string (parse error) while the pre-script
cell holds the string PS. -/
def rowBadPre : Row := [Cell.s "x", Cell.s "n", Cell.s "g", Cell.s "w", Cell.s "t",
  Cell.s "http://a/", Cell.s "GET", Cell.empty, Cell.empty, Cell.empty,
  Cell.s "PS", Cell.empty]

/-- A `Group:` control row. -/
def groupRowOf (g : String) : Row := [Cell.s ("Group: " ++ g)]

/-- A case carrying a parse error (as TestCase::new materializes it). -/
def tcErrFix : TestCase := ⟨defaultCaseData, [("id", "ID is not a number.")]⟩

/-- An error-free case with repeat_count 2. -/
def tcRepeatFix : TestCase :=
  ⟨{ defaultCaseData with id := 7, config := ⟨2, .noAuth, 0⟩ }, []⟩

/-- An authorizer case whose response body carries a token at
data.access_token. -/
def authCaseFix : CaseSpec := ⟨[], ⟨1, .authorizer, 0⟩,
  fun _ => ⟨some (Json.obj [("data", Json.obj [("access_token", Json.str "T")])]), true⟩⟩

/-- An authorized case with one static header. -/
def tgtCaseFix : CaseSpec := ⟨[("X", "1")], ⟨1, .authorized, 0⟩, fun _ => ⟨none, true⟩⟩

/-- A single-sheet workbook: header row, a group row, two case rows. -/
def wbOne : List (String × List Row) :=
  [("S", [[Cell.s "hdr"], groupRowOf "G", rowOk, rowBadPre])]

/-- The single-worksheet configuration with start_row 1 and end_row 1. -/
def cfgOne : SuiteCfg := ⟨some 1, some 1, none, none, some "S", false, none, none⟩

/-- A two-sheet workbook, each sheet: header row, group row, case row. -/
def wbTwo : List (String × List Row) :=
  [("A", [[Cell.s "hdr"], groupRowOf "G", rowOk]),
   ("B", [[Cell.s "hdr"], groupRowOf "G", rowOk])]

/-- All-sheets configuration with no start_row (defaults to 1). -/
def cfgAllFix : SuiteCfg := ⟨none, none, none, none, none, false, none, none⟩

/-- All-sheets configuration with start_row 3 set (only reachable through
config.yaml, which the CLI conflict check does not inspect). -/
def cfgSkipFix : SuiteCfg := ⟨some 3, none, none, none, none, false, none, none⟩

/-! Theorems. -/

/-- C2: the claim is false on the code.  The tester seeded by
initialize_globals propagates a thrown exception instead of returning
false, and a successful call leaves SAT.testName untouched (here: still
unset, not the assertion name). -/
theorem tester_spec_cex :
    satTester ⟨none⟩ "t" (fun _ => .error (.str "boom")) = .error (.str "boom") ∧
    satTester ⟨none⟩ "t" (fun _ => .ok (.bool true)) = .ok (⟨none⟩, .bool true) := by
  exact ⟨rfl, rfl⟩

/-- C2 (amended): SAT.tester calls the callback and, when the callback
returns a value r, yields the strict boolean r === true with the SAT
state (in particular SAT.testName) unchanged; when the callback throws,
the exception propagates unchanged out of the call. -/
theorem tester_behavior (st : SatState) (name : String)
    (cb : Unit → Except JsVal JsVal) (r e : JsVal) :
    (cb () = .ok r → satTester st name cb = .ok (st, .bool (strictEqTrue r))) ∧
    (cb () = .error e → satTester st name cb = .error e) := by
  constructor
  · intro h
    unfold satTester
    rw [h]
  · intro h
    unfold satTester
    rw [h]

/-- C2 witness: a callback returning a non-true value makes the tester
return false, with the state unchanged. -/
theorem tester_behavior_wit :
    satTester ⟨none⟩ "w" (fun _ => .ok (.str "x")) = .ok (⟨none⟩, .bool false) := by
  have h := (tester_behavior ⟨none⟩ "w" (fun _ => .ok (.str "x")) (.str "x") (.str "z")).1 rfl
  simpa using h

/-- C5: an error-free case whose first iteration fails sends exactly one
request, breaks out of the repeat loop, and returns Failed, whatever the
configured repeat_count (at least 1). -/
theorem repeat_fail_fast (tc : TestCase) (key : Option String)
    (outcome : Nat → Outcome) (tok0 : Option String)
    (h1 : tc.errors = []) (h2 : 1 ≤ tc.data.config.repeatCount)
    (h3 : (outcome 0).postOk = false) :
    (runCase tc key outcome tok0).result = .failed ∧
    (runCase tc key outcome tok0).sends.length = 1 ∧
    (runCase tc key outcome tok0).events =
      [.caseBegin tc.data.id, .caseEnd tc.data.id] := by
  obtain ⟨n, hn⟩ : ∃ n, tc.data.config.repeatCount = n + 1 :=
    ⟨tc.data.config.repeatCount - 1, by omega⟩
  simp only [runCase, h1, hn, runIters, h3, ne_eq, not_true_eq_false, if_false,
    ite_false, if_neg, reduceCtorEq]
  simp [runIters, h3]

/-- C5 witness at repeat_count 2 with a failing first iteration. -/
theorem repeat_fail_fast_wit :
    (runCase tcRepeatFix none (fun _ => ⟨none, false⟩) none).result = .failed ∧
    (runCase tcRepeatFix none (fun _ => ⟨none, false⟩) none).sends.length = 1 ∧
    (runCase tcRepeatFix none (fun _ => ⟨none, false⟩) none).events =
      [.caseBegin tcRepeatFix.data.id, .caseEnd tcRepeatFix.data.id] :=
  repeat_fail_fast tcRepeatFix none (fun _ => ⟨none, false⟩) none (by decide)
    (by decide) (by decide)

/-- C6: a row with at least one parse error materializes a case whose run
returns Skipped without sending any request. -/
theorem parse_error_skips (ext : Ext) (kw : Nat → KwSup) (baseUrl : Option String)
    (row : Row) (key : Option String) (outcome : Nat → Outcome) (tok0 : Option String)
    (h : (TestCase.new ext kw baseUrl row).errors ≠ []) :
    (runCase (TestCase.new ext kw baseUrl row) key outcome tok0).result = .skipped ∧
    (runCase (TestCase.new ext kw baseUrl row) key outcome tok0).sends = [] := by
  simp [runCase, h]

/-- C6 witness: the fixture row with a string id cell. -/
theorem parse_error_skips_wit :
    (runCase (TestCase.new extT kwT none rowBadPre) none outT none).result = .skipped ∧
    (runCase (TestCase.new extT kwT none rowBadPre) none outT none).sends = [] :=
  parse_error_skips extT kwT none rowBadPre none outT none (by decide)

/-- C10: an error-free case with repeat_count 0 fires its begin event,
performs no send, fires no end event, returns Passed, and the group
counters then record it as passed. -/
theorem repeat_zero_passes (tc : TestCase) (key : Option String)
    (outcome : Nat → Outcome) (tok0 : Option String) (st : GroupStats)
    (h1 : tc.errors = []) (h2 : tc.data.config.repeatCount = 0) :
    (runCase tc key outcome tok0).result = .passed ∧
    (runCase tc key outcome tok0).sends = [] ∧
    (runCase tc key outcome tok0).events = [.caseBegin tc.data.id] ∧
    groupUpdate st (runCase tc key outcome tok0).result =
      { st with total := st.total + 1, passed := st.passed + 1 } := by
  simp [runCase, h1, h2, runIters, groupUpdate]

/-- C10 witness at a concrete repeat_count-0 case. -/
theorem repeat_zero_passes_wit :
    (runCase ⟨{ defaultCaseData with id := 3, config := ⟨0, .noAuth, 0⟩ }, []⟩
        none outT none).result = .passed ∧
    (runCase ⟨{ defaultCaseData with id := 3, config := ⟨0, .noAuth, 0⟩ }, []⟩
        none outT none).sends = [] ∧
    (runCase ⟨{ defaultCaseData with id := 3, config := ⟨0, .noAuth, 0⟩ }, []⟩
        none outT none).events = [.caseBegin 3] ∧
    groupUpdate ⟨0, 0, 0, 0⟩
        (runCase ⟨{ defaultCaseData with id := 3, config := ⟨0, .noAuth, 0⟩ }, []⟩
          none outT none).result = ⟨1, 1, 0, 0⟩ :=
  repeat_zero_passes ⟨{ defaultCaseData with id := 3, config := ⟨0, .noAuth, 0⟩ }, []⟩
    none outT none ⟨0, 0, 0, 0⟩ (by decide) (by decide)

/-- C7: the claim is false on the code.  With no Content-Type header and
the payload string form-data, prepare_payload takes the guarded
`None if payload contains "form-data"` arm and encodes a multipart body,
not JSON. -/
theorem default_content_type_cex :
    (preparePayload (fun _ => none) [] "form-data").isJsonEnc = false := by
  decide

/-- C7 (amended): when no header names a known content type, the encoding
defaults to JSON (the effective payload parsed as JSON with fallback to
the empty object) in every situation except one: a missing Content-Type
header combined with a payload containing the substring form-data, which
selects the multipart encoding instead. -/
theorem payload_encoding_branch (jparse : String → Option Json)
    (headers : List (String × String)) (p : String)
    (h : ∀ ct, findContentType headers = some ct →
      ct ≠ "application/json" ∧ ct ≠ "application/x-www-form-urlencoded" ∧
      ct ≠ "multipart/form-data") :
    preparePayload jparse headers p =
      (if findContentType headers = none ∧ containsSub "form-data".data p.data = true
       then PayloadEnc.multipartEnc ((jparse p).getD (Json.obj []))
       else PayloadEnc.jsonEnc ((jparse p).getD (Json.obj []))) := by
  unfold preparePayload
  cases hct : findContentType headers with
  | none =>
    by_cases hfd : containsSub "form-data".data p.data = true
    · simp [hct, hfd]
    · simp [hct, hfd]
  | some ct =>
    obtain ⟨h1, h2, h3⟩ := h ct hct
    simp [hct, h1, h2, h3]

/-- C7 witness: an unknown content type text/plain yields the JSON
encoding even though the payload contains form-data. -/
theorem payload_encoding_branch_wit :
    preparePayload (fun _ => none) [("Content-Type", "text/plain")] "form-data" =
      PayloadEnc.jsonEnc (Json.obj []) := by
  have h := payload_encoding_branch (fun _ => none) [("Content-Type", "text/plain")]
    "form-data" (by
      intro ct hct
      have h2 : findContentType [("Content-Type", "text/plain")] = some "text/plain" := by
        decide
      rw [h2] at hct
      injection hct with h3
      subst h3
      exact ⟨by decide, by decide, by decide⟩)
  rw [h, if_neg (by decide)]
  rfl

/-- C8: the claim is false on the code.  A row whose pre-script cell
holds PS but whose id cell errors materializes the default record: the
pre-script is dropped, not retained. -/
theorem pre_script_dropped_cex :
    (TestCase.new extT kwT none rowBadPre).data.preTest = none ∧
    (TestCase.new extT kwT none rowBadPre).errors ≠ [] := by
  decide

/-- C8 (amended): the parser reads the pre-script first and an error-free
row keeps it in the materialized record; but whenever any field has a
parse error, TestCase::new discards all parsed data, so the materialized
record carries pre_script = None together with the converted error
list. -/
theorem pre_script_materialization (ext : Ext) (kw : Nat → KwSup)
    (baseUrl : Option String) (row : Row) :
    (TestCase.new ext kw baseUrl row).data.preTest =
      (match parseTestCaseData ext kw baseUrl row with
       | .ok _ => (cellAt row 10).getString?
       | .error _ => none) ∧
    (TestCase.new ext kw baseUrl row).errors =
      (match parseTestCaseData ext kw baseUrl row with
       | .ok _ => []
       | .error es => es.map (fun e => (e.field, e.message))) := by
  unfold TestCase.new
  cases h : parseTestCaseData ext kw baseUrl row with
  | ok d =>
    refine ⟨?_, rfl⟩
    unfold parseTestCaseData at h
    simp only at h
    split at h
    · injection h with h2
      subst h2
      rfl
    · exact absurd h (by simp)
  | error es => exact ⟨rfl, rfl⟩

/-! Identity lemmas for the keyword expander and placeholder resolver. -/

/-- containsSub on a cons unfolds to a prefix check plus the tail. -/
theorem containsSub_cons (pat : List Char) (c : Char) (t : List Char) :
    containsSub pat (c :: t) = (pat.isPrefixOf (c :: t) || containsSub pat t) := rfl

/-- A literal replacement loop leaves a string without the token
untouched. -/
theorem replLoop_id (pat : List Char) (sup : List String) (s : List Char)
    (h : containsSub pat s = false) : replLoop pat sup s = s := by
  cases sup with
  | nil => rfl
  | cons v vs =>
    unfold replLoop
    rw [h]
    simp

/-- Without the $RandomEmail literal there is no email-regex match. -/
theorem emailFind_none (s : List Char)
    (h : containsSub "$RandomEmail".data s = false) : emailFind s = none := by
  induction s with
  | nil => rfl
  | cons c t ih =>
    rw [containsSub_cons, Bool.or_eq_false_iff] at h
    unfold emailFind
    rw [if_neg (by simp [h.1]), ih h.2]

/-- The email loop fixes strings without the $RandomEmail literal. -/
theorem emailLoop_id (sup : List (Option String → String)) (s : List Char)
    (h : containsSub "$RandomEmail".data s = false) : emailLoop sup s = s := by
  cases sup with
  | nil => rfl
  | cons g gs =>
    unfold emailLoop
    rw [emailFind_none s h]

/-- substitute_keywords is the identity on strings containing none of the
six generator tokens. -/
theorem substituteKeywords_id (sup : KwSup) (s : String)
    (h1 : containsSub "$RandomName".data s.data = false)
    (h2 : containsSub "$RandomPhone".data s.data = false)
    (h3 : containsSub "$RandomAddress".data s.data = false)
    (h4 : containsSub "$RandomCompany".data s.data = false)
    (h5 : containsSub "$RandomEmail".data s.data = false)
    (h6 : containsSub "$UUID".data s.data = false) :
    substituteKeywords sup s = s := by
  unfold substituteKeywords
  dsimp only
  rw [replLoop_id _ _ _ h1, replLoop_id _ _ _ h2, replLoop_id _ _ _ h3,
    replLoop_id _ _ _ h4, emailLoop_id _ _ h5, replLoop_id _ _ _ h6]

/-- The placeholder scan is the identity on strings with no opening
braces, at the fuel it is always called with. -/
theorem substPhAux_id (w : PhWorld) (s : List Char)
    (h : containsSub [braceL, braceL] s = false) :
    substPhAux w s.length s = s := by
  induction s with
  | nil => rfl
  | cons c t ih =>
    rw [containsSub_cons, Bool.or_eq_false_iff] at h
    have hcond : ¬(c = braceL ∧ t.head? = some braceL) := by
      rintro ⟨hc, hh⟩
      subst hc
      cases t with
      | nil => simp at hh
      | cons c2 t2 =>
        rw [List.head?_cons, Option.some.injEq] at hh
        subst hh
        simp [List.isPrefixOf] at h
    show substPhAux w (t.length + 1) (c :: t) = c :: t
    unfold substPhAux
    rw [if_neg hcond, ih h.2]

/-- C9: the claim is false on the code.  substitute_placeholders begins
with substitute_keywords, so the input $UUID — which contains no brace
placeholder at all — is rewritten to the freshly generated value. -/
theorem placeholder_identity_cex :
    substitutePlaceholders ⟨[], [], [], [], [], ["u1"]⟩
      ⟨fun _ => none, fun _ => "", fun _ => Except.error ()⟩ "$UUID" ≠ "$UUID" := by
  decide

/-- C9 (amended): substitute_placeholders is the identity on inputs that
contain no opening double brace and none of the keyword generator
tokens, for every context and every supply of fresh values. -/
theorem placeholder_identity (sup : KwSup) (w : PhWorld) (s : String)
    (h1 : containsSub "$RandomName".data s.data = false)
    (h2 : containsSub "$RandomPhone".data s.data = false)
    (h3 : containsSub "$RandomAddress".data s.data = false)
    (h4 : containsSub "$RandomCompany".data s.data = false)
    (h5 : containsSub "$RandomEmail".data s.data = false)
    (h6 : containsSub "$UUID".data s.data = false)
    (h7 : containsSub [braceL, braceL] s.data = false) :
    substitutePlaceholders sup w s = s := by
  unfold substitutePlaceholders
  dsimp only
  rw [substituteKeywords_id sup s h1 h2 h3 h4 h5 h6, substPhAux_id w s.data h7]

/-- C9 witness: a plain word is untouched by placeholder resolution. -/
theorem placeholder_identity_wit :
    substitutePlaceholders ⟨[], [], [], [], [], ["u1"]⟩ phT "hello" = "hello" :=
  placeholder_identity ⟨[], [], [], [], [], ["u1"]⟩ phT "hello" (by decide) (by decide)
    (by decide) (by decide) (by decide) (by decide) (by decide)

/-! Token-threading lemmas for the repeat loop and the group case list. -/

/-- If a case is not an authorizer, or none of the iterations in range
extracts a token, the repeat loop preserves the context token and every
request carries the headers prepared with the incoming token. -/
theorem runIters_keep (staticHeaders : List (String × String)) (cfg : TCConfig)
    (key : Option String) (outcome : Nat → Outcome) :
    ∀ n i tok,
      (cfg.authType.isAuthorizer = false ∨
        ∀ j, i ≤ j → j < i + n → extractToken (outcome j).body key = none) →
      (runIters staticHeaders cfg key outcome i n tok).token = tok ∧
      ∀ hs ∈ (runIters staticHeaders cfg key outcome i n tok).sends,
        hs = prepHeaders staticHeaders cfg.authType tok := by
  intro n
  induction n with
  | zero =>
    intro i tok _
    exact ⟨rfl, by intro hs hmem; simp [runIters] at hmem⟩
  | succ n ih =>
    intro i tok h
    have htok2 : tokenAfterExec tok cfg.authType.isAuthorizer (outcome i).body key = tok := by
      rcases h with hf | hall
      · simp [tokenAfterExec, hf]
      · have hi : extractToken (outcome i).body key = none := hall i (le_refl i) (by omega)
        simp [tokenAfterExec, hi]
    have h2 : cfg.authType.isAuthorizer = false ∨
        ∀ j, i + 1 ≤ j → j < (i + 1) + n → extractToken (outcome j).body key = none :=
      h.imp id (fun hall j hj1 hj2 => hall j (by omega) (by omega))
    have ihx := ih (i + 1) tok h2
    cases hpost : (outcome i).postOk with
    | true =>
      constructor
      · simp only [runIters, hpost, htok2, if_true]
        exact ihx.1
      · simp only [runIters, hpost, htok2, if_true]
        intro hs hmem
        rcases List.mem_cons.1 hmem with hh | hh
        · exact hh
        · exact ihx.2 hs hh
    | false =>
      constructor
      · simp [runIters, hpost, htok2]
      · simp only [runIters, hpost]
        intro hs hmem
        simp at hmem
        exact hmem

/-- inertCase cases preserve the token through the repeat loop and send
only the headers prepared with the incoming token. -/
theorem caseRunTok_inert (key : Option String) (tok : Option String) (c : CaseSpec)
    (h : inertCase key c) :
    (caseRunTok key tok c).token = tok ∧
    ∀ hs ∈ (caseRunTok key tok c).sends,
      hs = prepHeaders c.headers c.cfg.authType tok := by
  refine runIters_keep c.headers c.cfg key c.outcome c.cfg.repeatCount 0 tok ?_
  rcases h with hne | hall
  · left
    cases hca : c.cfg.authType <;> simp_all [AuthType.isAuthorizer]
  · right
    intro j _ hj2
    exact hall j (by omega)

/-- A list of inert cases leaves the group token unchanged. -/
theorem groupTok_inert (key : Option String) :
    ∀ (cs : List CaseSpec) (tok : Option String),
      (∀ c ∈ cs, inertCase key c) → groupTok key cs tok = tok := by
  intro cs
  induction cs with
  | nil => intro tok _; rfl
  | cons c cs ih =>
    intro tok h
    have hc := h c (List.mem_cons_self c cs)
    have hstep : (caseRunTok key tok c).token = tok := (caseRunTok_inert key tok c hc).1
    show groupTok key cs (caseRunTok key tok c).token = tok
    rw [hstep]
    exact ih tok (fun d hd => h d (List.mem_cons_of_mem c hd))

/-- groupTok distributes over list append (fold composition). -/
theorem groupTok_append (key : Option String) (l1 l2 : List CaseSpec)
    (tok : Option String) :
    groupTok key (l1 ++ l2) tok = groupTok key l2 (groupTok key l1 tok) := by
  simp [groupTok, List.foldl_append]

/-- A successful authorizer (its first iteration extracts token t, no
later iteration extracts another) stores t, whatever the incoming token
and however its iterations pass or fail. -/
theorem authorizer_token (key : Option String) (tok : Option String) (a : CaseSpec)
    (t : String)
    (ha1 : a.cfg.authType = .authorizer) (ha2 : 1 ≤ a.cfg.repeatCount)
    (ha3 : extractToken (a.outcome 0).body key = some t)
    (ha4 : ∀ j, j < a.cfg.repeatCount → 0 < j →
      extractToken (a.outcome j).body key = none) :
    (caseRunTok key tok a).token = some t := by
  obtain ⟨n, hn⟩ : ∃ n, a.cfg.repeatCount = n + 1 := ⟨a.cfg.repeatCount - 1, by omega⟩
  have hauth : a.cfg.authType.isAuthorizer = true := by rw [ha1]; rfl
  have htok2 : tokenAfterExec tok a.cfg.authType.isAuthorizer (a.outcome 0).body key
      = some t := by
    simp [tokenAfterExec, hauth, ha3]
  unfold caseRunTok
  rw [hn]
  cases hpost : (a.outcome 0).postOk with
  | true =>
    simp only [runIters, hpost, htok2, if_true]
    refine (runIters_keep a.headers a.cfg key a.outcome n 1 (some t) ?_).1
    right
    intro j hj1 hj2
    exact ha4 j (by omega) (by omega)
  | false =>
    simp [runIters, hpost, htok2]

/-- C4: in one group, an authorized case running before any successful
authorizer sends only its static headers (the fresh context holds no
token), and an authorized case running after a successful authorizer
sends its static headers plus Authorization: Bearer t, with t the token
extracted along config.token_key. -/
theorem auth_header_attachment (key : Option String) (p1 p2 mid : List CaseSpec)
    (c0 a tgt : CaseSpec) (t : String)
    (hpre : ∀ c ∈ p1 ++ c0 :: p2, inertCase key c)
    (hc0 : c0.cfg.authType = .authorized)
    (ha1 : a.cfg.authType = .authorizer) (ha2 : 1 ≤ a.cfg.repeatCount)
    (ha3 : extractToken (a.outcome 0).body key = some t)
    (ha4 : ∀ j, j < a.cfg.repeatCount → 0 < j →
      extractToken (a.outcome j).body key = none)
    (hmid : ∀ c ∈ mid, inertCase key c)
    (htgt : tgt.cfg.authType = .authorized) :
    ((caseRunTok key (groupTok key p1 none) c0).sends).all
        (fun hs => hs == c0.headers) = true ∧
    ((caseRunTok key (groupTok key ((p1 ++ c0 :: p2) ++ a :: mid) none) tgt).sends).all
        (fun hs => hs == tgt.headers ++ [("Authorization", "Bearer " ++ t)]) = true := by
  have hc0inert : inertCase key c0 := by
    left
    rw [hc0]
    intro hcon
    cases hcon
  have htginert : inertCase key tgt := by
    left
    rw [htgt]
    intro hcon
    cases hcon
  constructor
  · have hp1 : ∀ c ∈ p1, inertCase key c := by
      intro c hc
      exact hpre c (List.mem_append_left _ hc)
    rw [groupTok_inert key p1 none hp1]
    rw [List.all_eq_true]
    intro hs hmem
    have := (caseRunTok_inert key none c0 hc0inert).2 hs hmem
    rw [this]
    simp [prepHeaders]
  · have hfirst : groupTok key (p1 ++ c0 :: p2) none = none :=
      groupTok_inert key _ none hpre
    rw [groupTok_append, hfirst]
    have hstep : groupTok key (a :: mid) none = some t := by
      show groupTok key mid (caseRunTok key none a).token = some t
      rw [authorizer_token key none a t ha1 ha2 ha3 ha4]
      exact groupTok_inert key mid (some t) hmid
    rw [hstep]
    rw [List.all_eq_true]
    intro hs hmem
    have := (caseRunTok_inert key (some t) tgt htginert).2 hs hmem
    rw [this, prepHeaders, htgt]
    simp [AuthType.isAuthorized]

/-- C4 witness: an authorized case before any authorizer carries only its
static header; after the fixture authorizer extracted T along
data.access_token, the authorized case carries the bearer header. -/
theorem auth_header_attachment_wit :
    ((caseRunTok (some "data.access_token")
        (groupTok (some "data.access_token") [] none) tgtCaseFix).sends).all
      (fun hs => hs == tgtCaseFix.headers) = true ∧
    ((caseRunTok (some "data.access_token")
        (groupTok (some "data.access_token")
          (([] ++ tgtCaseFix :: []) ++ authCaseFix :: []) none) tgtCaseFix).sends).all
      (fun hs => hs == tgtCaseFix.headers ++ [("Authorization", "Bearer " ++ "T")])
      = true :=
  auth_header_attachment (some "data.access_token") [] [] [] tgtCaseFix authCaseFix
    tgtCaseFix "T" (by decide) (by decide) (by decide) (by decide) (by decide)
    (by decide) (by decide) (by decide)

/-! Event-trace lemmas. -/

/-- The nesting checker splits over appends. -/
theorem runNest_append (a b : List Ev) (st : NestSt) :
    runNest (a ++ b) st = (runNest a st).bind (fun st2 => runNest b st2) := by
  induction a generalizing st with
  | nil => rfl
  | cons e t ih =>
    show runNest (e :: (t ++ b)) st = (runNest (e :: t) st).bind _
    cases h : stepNest st e with
    | none => simp [runNest, h]
    | some st2 => simp [runNest, h, ih st2]

/-- Case end events keep the checker inside the open group. -/
theorem runNest_replicate_caseEnd (n : Nat) (id : Nat) (g : String) :
    runNest (List.replicate n (.caseEnd id)) (.inGroup g) = some (.inGroup g) := by
  induction n with
  | zero => rfl
  | succ n ih =>
    show runNest (Ev.caseEnd id :: List.replicate n (Ev.caseEnd id)) (.inGroup g) = _
    unfold runNest
    exact ih

/-- The event list of one case run is its begin event followed by one end
event per sent request (and none when the case was skipped). -/
theorem runCase_events_shape (tc : TestCase) (key : Option String)
    (outcome : Nat → Outcome) (tok0 : Option String) :
    (runCase tc key outcome tok0).events =
      .caseBegin tc.data.id ::
        List.replicate (runCase tc key outcome tok0).sends.length
          (.caseEnd tc.data.id) := by
  by_cases h : tc.errors = []
  · simp [runCase, h, List.map_const']
  · simp [runCase, h]

/-- A whole case-event block keeps the checker inside the open group. -/
theorem runNest_caseEvs (id : Nat) (k : Nat) (g : String) :
    runNest (Ev.caseBegin id :: List.replicate k (Ev.caseEnd id)) (.inGroup g)
      = some (.inGroup g) := by
  have h1 : stepNest (.inGroup g) (.caseBegin id) = some (.inGroup g) := rfl
  simp [runNest, h1, runNest_replicate_caseEnd]

/-- Finalizing a group returns the checker to the suite level. -/
theorem runNest_finalize (g : Option GroupSt) :
    runNest (finalizeEvs g) (stOf g) = some .inSuite := by
  cases g with
  | none => rfl
  | some gs => simp [finalizeEvs, stOf, runNest, stepNest]

/-- The suite row loop always returns the checker to the suite level,
whatever the rows, configuration and external world. -/
theorem suiteLoop_nest (cfg : SuiteCfg) (ext : Ext) (sheet : String)
    (env : Nat → CaseEnv) :
    ∀ (l : List (Nat × Row)) (g : Option GroupSt),
      runNest (suiteLoop cfg ext sheet env l g).1 (stOf g) = some .inSuite := by
  intro l
  induction l with
  | nil =>
    intro g
    exact runNest_finalize g
  | cons ir rest ih =>
    intro g
    obtain ⟨i, r⟩ := ir
    by_cases h1 : i < cfg.startRow.getD 1
    · rw [suiteLoop.eq_def]
      dsimp only
      rw [if_pos h1]
      exact ih g
    · by_cases h2 : isGroupRow r = true
      · by_cases h3 : allowedGroup cfg sheet (groupNameOf r) = true
        · rw [suiteLoop.eq_def]
          dsimp only
          rw [if_neg h1, if_pos h2, if_pos h3]
          dsimp only
          rw [runNest_append, runNest_finalize g]
          show runNest (Ev.groupBegin (groupNameOf r) :: _) .inSuite = _
          unfold runNest
          show runNest (suiteLoop cfg ext sheet env rest
            (some ⟨groupNameOf r, none⟩)).1 (.inGroup (groupNameOf r)) = _
          exact ih (some ⟨groupNameOf r, none⟩)
        · rw [suiteLoop.eq_def]
          dsimp only
          rw [if_neg h1, if_pos h2, if_neg h3]
          dsimp only
          rw [runNest_append, runNest_finalize g]
          exact ih none
      · rw [suiteLoop.eq_def]
        dsimp only
        rw [if_neg h1, if_neg h2]
        cases g with
        | some gs =>
          dsimp only
          simp only [stOf]
          rw [runNest_append, runCase_events_shape, runNest_caseEvs]
          exact ih (some ⟨gs.name,
            (runCase (TestCase.new ext (env i).kw cfg.baseUrl r) cfg.tokenKey
              (env i).outcome gs.token).token⟩)
        | none =>
          exact ih none

/-- C1: the claim is false on the code.  A case with parse errors fires
its begin event and returns Skipped without any end event, and an
error-free case with repeat_count 2 whose two iterations pass fires two
end events, one per iteration — in both situations the begin event is
not followed by exactly one matching end. -/
theorem caseEnd_pairing_cex :
    (runCase tcErrFix none outT none).events = [.caseBegin 0] ∧
    (runCase tcErrFix none outT none).result = .skipped ∧
    (runCase tcRepeatFix none outT none).events =
      [.caseBegin 7, .caseEnd 7, .caseEnd 7] := by
  decide

/-- C1 (amended): every suite run emits a well-nested trace — the suite
begin/end events bracket the run, group spans are properly opened and
closed with matching names inside the suite span, and case events occur
only inside group spans; within one case, the trace is the begin event
followed by exactly one end event per executed iteration (so zero end
events for a case with parse errors, and one per iteration otherwise). -/
theorem event_trace_nesting (cfg : SuiteCfg) (ext : Ext) (sheet : String)
    (rows : List Row) (env : Nat → CaseEnv) (tc : TestCase) (key : Option String)
    (outcome : Nat → Outcome) (tok0 : Option String) :
    wellNested (suiteRun cfg ext sheet rows env).1 = true ∧
    (runCase tc key outcome tok0).events =
      .caseBegin tc.data.id ::
        List.replicate (runCase tc key outcome tok0).sends.length
          (.caseEnd tc.data.id) ∧
    (tc.errors ≠ [] → (runCase tc key outcome tok0).events = [.caseBegin tc.data.id]) := by
  refine ⟨?_, runCase_events_shape tc key outcome tok0, ?_⟩
  · have hbody : runNest (suiteLoop cfg ext sheet env rows.enum none).1 .inSuite
        = some .inSuite := suiteLoop_nest cfg ext sheet env rows.enum none
    simp only [wellNested, suiteRun, decide_eq_true_eq]
    show runNest (Ev.suiteBegin :: _) .outside = _
    unfold runNest
    show runNest ((suiteLoop cfg ext sheet env rows.enum none).1 ++ [Ev.suiteEnd])
      .inSuite = _
    rw [runNest_append, hbody]
    rfl
  · intro h
    simp [runCase, h]

/-- C1 witness: the fixture workbook sheet yields a well-nested trace,
and the parse-error fixture case emits no end event. -/
theorem event_trace_nesting_wit :
    wellNested (suiteRun cfgOne extT "S"
      [[Cell.s "hdr"], groupRowOf "G", rowOk, rowBadPre] (envT "S")).1 = true ∧
    (runCase tcErrFix none outT none).events = [.caseBegin tcErrFix.data.id] :=
  ⟨(event_trace_nesting cfgOne extT "S"
      [[Cell.s "hdr"], groupRowOf "G", rowOk, rowBadPre] (envT "S") tcErrFix none
      outT none).1,
   (event_trace_nesting cfgOne extT "S"
      [[Cell.s "hdr"], groupRowOf "G", rowOk, rowBadPre] (envT "S") tcErrFix none
      outT none).2.2 (by decide)⟩

/-- C3: evaluation of the orchestrator model at the failing inputs.  With
a single worksheet selected, start_row 1 and end_row 1, the two case rows
at indices 2 and 3 are still dispatched (end_row is never consulted), and
the whole run is unchanged when end_row is dropped; moreover in all-sheet
mode (no worksheet selected) a start_row from the configuration file does
take effect: it suppresses the group rows of every sheet. -/
theorem endRow_never_applied_eval :
    (tsatRun cfgOne extT wbOne envT).2 = [("S", 2), ("S", 3)] ∧
    tsatRun { cfgOne with endRow := none } extT wbOne envT
      = tsatRun cfgOne extT wbOne envT ∧
    (tsatRun cfgAllFix extT wbTwo envT).2 = [("A", 2), ("B", 2)] ∧
    (tsatRun cfgSkipFix extT wbTwo envT).2 = [] := by
  decide

end Satyanaash
